import Mathlib

/-!
# Verification of `circle_circle_intr` (cavalier_contours)

Shallow embedding of `src/cavalier_contours/src/core/math/circle_circle_intersect.rs`
over the exact reals, with the tolerance ("fuzzy") comparison predicates of the
`Real` trait and the `Vector2` arithmetic modelled from the specification
(their source files are not part of the provided sources).  The tolerance
epsilon, a fixed implementation constant in the code, is an explicit parameter
`eps` here.
-/

open Classical

namespace CavalierContours

/-- Modelled from the spec: `Vector2<T>` is a generic 2D vector; here over ℝ.
Two scalar components (x, y). -/
@[ext]
structure Vector2 where
  x : ℝ
  y : ℝ

namespace Vector2

/-- Modelled from the spec: component-wise vector addition. -/
def add (u v : Vector2) : Vector2 := ⟨u.x + v.x, u.y + v.y⟩

/-- Modelled from the spec: component-wise vector subtraction. -/
def sub (u v : Vector2) : Vector2 := ⟨u.x - v.x, u.y - v.y⟩

/-- Modelled from the spec: component-wise multiply by a scalar. -/
def scale (u : Vector2) (s : ℝ) : Vector2 := ⟨u.x * s, u.y * s⟩

/-- Modelled from the spec: standard dot product. -/
def dot (u v : Vector2) : ℝ := u.x * v.x + u.y * v.y

instance : Add Vector2 := ⟨add⟩
instance : Sub Vector2 := ⟨sub⟩

theorem add_def (u v : Vector2) : u + v = ⟨u.x + v.x, u.y + v.y⟩ := rfl

theorem sub_def (u v : Vector2) : u - v = ⟨u.x - v.x, u.y - v.y⟩ := rfl

end Vector2

/-- Modelled from the spec: `fuzzy_eq_zero(self)` is true iff `|self| ≤ ε`. -/
def fuzzy_eq_zero (eps a : ℝ) : Prop := |a| ≤ eps

/-- Modelled from the spec: `fuzzy_eq(self, other)` is true iff `|self − other| ≤ ε`. -/
def fuzzy_eq (eps a b : ℝ) : Prop := |a - b| ≤ eps

/-- Modelled from the spec: `fuzzy_lt(self, other)`; practical effect `self < other + ε`
(treats near-equal values as satisfying `<`). -/
def fuzzy_lt (eps a b : ℝ) : Prop := a < b + eps

/-- Modelled from the spec: `fuzzy_gt(self, other)`, the symmetric counterpart of
`fuzzy_lt`: `self > other − ε`. -/
def fuzzy_gt (eps a b : ℝ) : Prop := a > b - eps

/-- Modelled from the spec: `Vector2::fuzzy_eq` is true iff both components are
within tolerance of the corresponding other component. -/
def Vector2.fuzzy_eq (eps : ℝ) (u v : Vector2) : Prop :=
  CavalierContours.fuzzy_eq eps u.x v.x ∧ CavalierContours.fuzzy_eq eps u.y v.y

/-- Holds the result of finding the intersect between two circles
(`CircleCircleIntr<T>` in the source). -/
inductive CircleCircleIntr where
  | NoIntersect : CircleCircleIntr
  | TangentIntersect : (point : Vector2) → CircleCircleIntr
  | TwoIntersects : (point1 : Vector2) → (point2 : Vector2) → CircleCircleIntr
  | Overlapping : CircleCircleIntr

/-- Finds the intersects between two circles, embedding `circle_circle_intr`
from the source line by line; `eps` is the tolerance constant of the numeric
type's fuzzy comparisons. -/
noncomputable def circle_circle_intr (eps : ℝ) (radius1 : ℝ) (center1 : Vector2)
    (radius2 : ℝ) (center2 : Vector2) : CircleCircleIntr :=
  let cv := center2 - center1
  let d2 := cv.dot cv
  let d := Real.sqrt d2
  if fuzzy_eq_zero eps d then
    -- same center position
    if fuzzy_eq eps radius1 radius2 then
      CircleCircleIntr.Overlapping
    else
      CircleCircleIntr.NoIntersect
  else
    -- different center position
    if ¬ fuzzy_lt eps d (radius1 + radius2) ∨ ¬ fuzzy_gt eps d |radius1 - radius2| then
      -- distance relative to radii is too large or too small for intersects to occur
      CircleCircleIntr.NoIntersect
    else
      let rad1_sq := radius1 * radius1
      let a := (rad1_sq - radius2 * radius2 + d2) / (2 * d)
      let midpoint := center1 + cv.scale (a / d)
      let diff := rad1_sq - a * a
      if diff < 0 then
        CircleCircleIntr.TangentIntersect midpoint
      else
        let h := Real.sqrt diff
        let h_over_d := h / d
        let x_term := h_over_d * cv.y
        let y_term := h_over_d * cv.x
        let pt1 := Vector2.mk (midpoint.x + x_term) (midpoint.y - y_term)
        let pt2 := Vector2.mk (midpoint.x - x_term) (midpoint.y + y_term)
        if pt1.fuzzy_eq eps pt2 then
          CircleCircleIntr.TangentIntersect pt1
        else
          CircleCircleIntr.TwoIntersects pt1 pt2

/-! ## Named intermediate quantities

The let-bound quantities of the algorithm, as top-level definitions, together
with one master equation unfolding `circle_circle_intr` in terms of them. -/

/-- The center separation vector `cv = center2 - center1`. -/
def cvOf (center1 center2 : Vector2) : Vector2 := center2 - center1

/-- The squared center distance `d2 = cv.dot(cv)`. -/
def d2Of (center1 center2 : Vector2) : ℝ := (cvOf center1 center2).dot (cvOf center1 center2)

/-- The center distance `d = sqrt(d2)`. -/
noncomputable def dOf (center1 center2 : Vector2) : ℝ := Real.sqrt (d2Of center1 center2)

/-- The signed distance `a = (radius1² − radius2² + d²) / (2d)` from center1 to the
radical line along the center-to-center axis. -/
noncomputable def aOf (radius1 : ℝ) (center1 : Vector2) (radius2 : ℝ) (center2 : Vector2) : ℝ :=
  (radius1 * radius1 - radius2 * radius2 + d2Of center1 center2) / (2 * dOf center1 center2)

/-- The point `midpoint = center1 + cv * (a / d)` on the center-to-center line. -/
noncomputable def midpointOf (radius1 : ℝ) (center1 : Vector2) (radius2 : ℝ)
    (center2 : Vector2) : Vector2 :=
  center1 + (cvOf center1 center2).scale (aOf radius1 center1 radius2 center2 / dOf center1 center2)

/-- The discriminant `diff = radius1² − a²`. -/
noncomputable def diffOf (radius1 : ℝ) (center1 : Vector2) (radius2 : ℝ) (center2 : Vector2) : ℝ :=
  radius1 * radius1 -
    aOf radius1 center1 radius2 center2 * aOf radius1 center1 radius2 center2

/-- The half-chord length `h = sqrt(diff)`. -/
noncomputable def hOf (radius1 : ℝ) (center1 : Vector2) (radius2 : ℝ) (center2 : Vector2) : ℝ :=
  Real.sqrt (diffOf radius1 center1 radius2 center2)

/-- The first candidate point `point1 = (midpoint.x + (h/d)·cv.y, midpoint.y − (h/d)·cv.x)`. -/
noncomputable def pt1Of (radius1 : ℝ) (center1 : Vector2) (radius2 : ℝ)
    (center2 : Vector2) : Vector2 :=
  Vector2.mk
    ((midpointOf radius1 center1 radius2 center2).x +
      hOf radius1 center1 radius2 center2 / dOf center1 center2 * (cvOf center1 center2).y)
    ((midpointOf radius1 center1 radius2 center2).y -
      hOf radius1 center1 radius2 center2 / dOf center1 center2 * (cvOf center1 center2).x)

/-- The second candidate point `point2 = (midpoint.x − (h/d)·cv.y, midpoint.y + (h/d)·cv.x)`. -/
noncomputable def pt2Of (radius1 : ℝ) (center1 : Vector2) (radius2 : ℝ)
    (center2 : Vector2) : Vector2 :=
  Vector2.mk
    ((midpointOf radius1 center1 radius2 center2).x -
      hOf radius1 center1 radius2 center2 / dOf center1 center2 * (cvOf center1 center2).y)
    ((midpointOf radius1 center1 radius2 center2).y +
      hOf radius1 center1 radius2 center2 / dOf center1 center2 * (cvOf center1 center2).x)

/-- The Euclidean distance between two points, used to state that a returned point
lies on a circle. -/
noncomputable def Vector2.distTo (u v : Vector2) : ℝ :=
  Real.sqrt ((u.x - v.x) ^ 2 + (u.y - v.y) ^ 2)

/-- Master equation: `circle_circle_intr` expressed through the named intermediate
quantities, by definitional unfolding. -/
theorem circle_circle_intr_eq (eps radius1 : ℝ) (center1 : Vector2) (radius2 : ℝ)
    (center2 : Vector2) :
    circle_circle_intr eps radius1 center1 radius2 center2 =
      if fuzzy_eq_zero eps (dOf center1 center2) then
        if fuzzy_eq eps radius1 radius2 then
          CircleCircleIntr.Overlapping
        else
          CircleCircleIntr.NoIntersect
      else
        if ¬ fuzzy_lt eps (dOf center1 center2) (radius1 + radius2) ∨
            ¬ fuzzy_gt eps (dOf center1 center2) |radius1 - radius2| then
          CircleCircleIntr.NoIntersect
        else
          if diffOf radius1 center1 radius2 center2 < 0 then
            CircleCircleIntr.TangentIntersect (midpointOf radius1 center1 radius2 center2)
          else
            if Vector2.fuzzy_eq eps (pt1Of radius1 center1 radius2 center2)
                (pt2Of radius1 center1 radius2 center2) then
              CircleCircleIntr.TangentIntersect (pt1Of radius1 center1 radius2 center2)
            else
              CircleCircleIntr.TwoIntersects (pt1Of radius1 center1 radius2 center2)
                (pt2Of radius1 center1 radius2 center2) := rfl

/-! ## Basic facts about the intermediate quantities -/

theorem d2Of_nonneg (c1 c2 : Vector2) : 0 ≤ d2Of c1 c2 := by
  simp only [d2Of, Vector2.dot]
  nlinarith [sq_nonneg (cvOf c1 c2).x, sq_nonneg (cvOf c1 c2).y]

theorem dOf_nonneg (c1 c2 : Vector2) : 0 ≤ dOf c1 c2 := Real.sqrt_nonneg _

theorem dOf_sq (c1 c2 : Vector2) : dOf c1 c2 ^ 2 = d2Of c1 c2 :=
  Real.sq_sqrt (d2Of_nonneg c1 c2)

theorem dOf_gt {eps : ℝ} {c1 c2 : Vector2}
    (h : ¬ fuzzy_eq_zero eps (dOf c1 c2)) : eps < dOf c1 c2 := by
  have h2 : ¬ |dOf c1 c2| ≤ eps := h
  rw [abs_of_nonneg (dOf_nonneg c1 c2)] at h2
  linarith [not_le.mp h2]

theorem dOf_pos {eps : ℝ} {c1 c2 : Vector2} (heps : 0 ≤ eps)
    (h : ¬ fuzzy_eq_zero eps (dOf c1 c2)) : 0 < dOf c1 c2 :=
  lt_of_le_of_lt heps (dOf_gt h)

theorem dOf_ne_zero {eps : ℝ} {c1 c2 : Vector2} (heps : 0 ≤ eps)
    (h : ¬ fuzzy_eq_zero eps (dOf c1 c2)) : dOf c1 c2 ≠ 0 :=
  ne_of_gt (dOf_pos heps h)

/-- Square-root evaluation helper: `sqrt a = b` once `a = b²` and `0 ≤ b`. -/
theorem sqrt_of_sq_eq (a b : ℝ) (hb : 0 ≤ b) (h : a = b ^ 2) : Real.sqrt a = b := by
  rw [h, Real.sqrt_sq hb]

theorem hOf_nonneg (radius1 : ℝ) (c1 : Vector2) (radius2 : ℝ) (c2 : Vector2) :
    0 ≤ hOf radius1 c1 radius2 c2 := Real.sqrt_nonneg _

theorem hOf_sq {radius1 : ℝ} {c1 : Vector2} {radius2 : ℝ} {c2 : Vector2}
    (h : 0 ≤ diffOf radius1 c1 radius2 c2) :
    hOf radius1 c1 radius2 c2 ^ 2 = diffOf radius1 c1 radius2 c2 := Real.sq_sqrt h

theorem d2Of_expand (c1 c2 : Vector2) :
    d2Of c1 c2 = (c2.x - c1.x) ^ 2 + (c2.y - c1.y) ^ 2 := by
  simp only [d2Of, cvOf, Vector2.dot, Vector2.sub_def]
  ring

theorem aOf_mul (radius1 : ℝ) (c1 : Vector2) (radius2 : ℝ) (c2 : Vector2)
    (hd : dOf c1 c2 ≠ 0) :
    aOf radius1 c1 radius2 c2 * (2 * dOf c1 c2) =
      radius1 * radius1 - radius2 * radius2 + d2Of c1 c2 := by
  rw [aOf]
  field_simp

/-! ## Component expansions -/

@[simp] theorem Vector2.add_x (u v : Vector2) : (u + v).x = u.x + v.x := rfl

@[simp] theorem Vector2.add_y (u v : Vector2) : (u + v).y = u.y + v.y := rfl

@[simp] theorem Vector2.sub_x (u v : Vector2) : (u - v).x = u.x - v.x := rfl

@[simp] theorem Vector2.sub_y (u v : Vector2) : (u - v).y = u.y - v.y := rfl

@[simp] theorem Vector2.scale_x (u : Vector2) (s : ℝ) : (u.scale s).x = u.x * s := rfl

@[simp] theorem Vector2.scale_y (u : Vector2) (s : ℝ) : (u.scale s).y = u.y * s := rfl

@[simp] theorem cvOf_x (c1 c2 : Vector2) : (cvOf c1 c2).x = c2.x - c1.x := rfl

@[simp] theorem cvOf_y (c1 c2 : Vector2) : (cvOf c1 c2).y = c2.y - c1.y := rfl

@[simp] theorem midpointOf_x (radius1 : ℝ) (c1 : Vector2) (radius2 : ℝ) (c2 : Vector2) :
    (midpointOf radius1 c1 radius2 c2).x =
      c1.x + (c2.x - c1.x) * (aOf radius1 c1 radius2 c2 / dOf c1 c2) := rfl

@[simp] theorem midpointOf_y (radius1 : ℝ) (c1 : Vector2) (radius2 : ℝ) (c2 : Vector2) :
    (midpointOf radius1 c1 radius2 c2).y =
      c1.y + (c2.y - c1.y) * (aOf radius1 c1 radius2 c2 / dOf c1 c2) := rfl

@[simp] theorem pt1Of_x (radius1 : ℝ) (c1 : Vector2) (radius2 : ℝ) (c2 : Vector2) :
    (pt1Of radius1 c1 radius2 c2).x =
      (midpointOf radius1 c1 radius2 c2).x +
        hOf radius1 c1 radius2 c2 / dOf c1 c2 * (c2.y - c1.y) := rfl

@[simp] theorem pt1Of_y (radius1 : ℝ) (c1 : Vector2) (radius2 : ℝ) (c2 : Vector2) :
    (pt1Of radius1 c1 radius2 c2).y =
      (midpointOf radius1 c1 radius2 c2).y -
        hOf radius1 c1 radius2 c2 / dOf c1 c2 * (c2.x - c1.x) := rfl

@[simp] theorem pt2Of_x (radius1 : ℝ) (c1 : Vector2) (radius2 : ℝ) (c2 : Vector2) :
    (pt2Of radius1 c1 radius2 c2).x =
      (midpointOf radius1 c1 radius2 c2).x -
        hOf radius1 c1 radius2 c2 / dOf c1 c2 * (c2.y - c1.y) := rfl

@[simp] theorem pt2Of_y (radius1 : ℝ) (c1 : Vector2) (radius2 : ℝ) (c2 : Vector2) :
    (pt2Of radius1 c1 radius2 c2).y =
      (midpointOf radius1 c1 radius2 c2).y +
        hOf radius1 c1 radius2 c2 / dOf c1 c2 * (c2.x - c1.x) := rfl

/-! ## Fuzzy comparison facts -/

theorem fuzzy_eq_refl {eps : ℝ} (heps : 0 ≤ eps) (a : ℝ) : fuzzy_eq eps a a := by
  simp [fuzzy_eq, heps]

theorem fuzzy_eq_symm {eps a b : ℝ} (h : fuzzy_eq eps a b) : fuzzy_eq eps b a := by
  rw [fuzzy_eq, abs_sub_comm]
  exact h

theorem fuzzy_eq_comm (eps a b : ℝ) : fuzzy_eq eps a b ↔ fuzzy_eq eps b a :=
  ⟨fuzzy_eq_symm, fuzzy_eq_symm⟩

theorem vector2_fuzzy_eq_refl {eps : ℝ} (heps : 0 ≤ eps) (u : Vector2) :
    Vector2.fuzzy_eq eps u u :=
  ⟨CavalierContours.fuzzy_eq_refl heps _, CavalierContours.fuzzy_eq_refl heps _⟩

theorem vector2_fuzzy_eq_symm {eps : ℝ} {u v : Vector2} (h : Vector2.fuzzy_eq eps u v) :
    Vector2.fuzzy_eq eps v u :=
  ⟨CavalierContours.fuzzy_eq_symm h.1, CavalierContours.fuzzy_eq_symm h.2⟩

theorem vector2_fuzzy_eq_comm (eps : ℝ) (u v : Vector2) :
    Vector2.fuzzy_eq eps u v ↔ Vector2.fuzzy_eq eps v u :=
  ⟨vector2_fuzzy_eq_symm, vector2_fuzzy_eq_symm⟩

/-- Two intersection results carry the same variant tag. -/
def sameVariant : CircleCircleIntr → CircleCircleIntr → Prop
  | CircleCircleIntr.NoIntersect, CircleCircleIntr.NoIntersect => True
  | CircleCircleIntr.TangentIntersect _, CircleCircleIntr.TangentIntersect _ => True
  | CircleCircleIntr.TwoIntersects _ _, CircleCircleIntr.TwoIntersects _ _ => True
  | CircleCircleIntr.Overlapping, CircleCircleIntr.Overlapping => True
  | _, _ => False

/-! ## Swap identities: exchanging the two circles -/

theorem cvOf_swap (c1 c2 : Vector2) :
    cvOf c2 c1 = Vector2.mk (-(cvOf c1 c2).x) (-(cvOf c1 c2).y) := by
  ext <;> simp [cvOf]

theorem d2Of_swap (c1 c2 : Vector2) : d2Of c2 c1 = d2Of c1 c2 := by
  simp only [d2Of, cvOf, Vector2.dot, Vector2.sub_def]
  ring

theorem dOf_swap (c1 c2 : Vector2) : dOf c2 c1 = dOf c1 c2 := by
  rw [dOf, dOf, d2Of_swap]

theorem aOf_swap (radius1 : ℝ) (c1 : Vector2) (radius2 : ℝ) (c2 : Vector2)
    (hd : dOf c1 c2 ≠ 0) :
    aOf radius2 c2 radius1 c1 = dOf c1 c2 - aOf radius1 c1 radius2 c2 := by
  rw [aOf, aOf, d2Of_swap c1 c2, dOf_swap c1 c2]
  field_simp
  linear_combination (-2 : ℝ) * dOf_sq c1 c2

theorem midpointOf_swap (radius1 : ℝ) (c1 : Vector2) (radius2 : ℝ) (c2 : Vector2)
    (hd : dOf c1 c2 ≠ 0) :
    midpointOf radius2 c2 radius1 c1 = midpointOf radius1 c1 radius2 c2 := by
  ext <;>
    simp only [midpointOf_x, midpointOf_y, aOf_swap radius1 c1 radius2 c2 hd,
      dOf_swap c1 c2] <;>
    (field_simp; try ring)

theorem diffOf_swap (radius1 : ℝ) (c1 : Vector2) (radius2 : ℝ) (c2 : Vector2)
    (hd : dOf c1 c2 ≠ 0) :
    diffOf radius2 c2 radius1 c1 = diffOf radius1 c1 radius2 c2 := by
  rw [diffOf, diffOf, aOf_swap radius1 c1 radius2 c2 hd]
  have ha := aOf_mul radius1 c1 radius2 c2 hd
  have hsq := dOf_sq c1 c2
  nlinarith [ha, hsq]

theorem fuzzy_lt_add_comm (eps radius1 radius2 d : ℝ) :
    fuzzy_lt eps d (radius2 + radius1) ↔ fuzzy_lt eps d (radius1 + radius2) := by
  rw [add_comm radius2 radius1]

theorem abs_sub_swap (radius1 radius2 : ℝ) : |radius2 - radius1| = |radius1 - radius2| :=
  abs_sub_comm radius2 radius1

theorem hOf_swap (radius1 : ℝ) (c1 : Vector2) (radius2 : ℝ) (c2 : Vector2)
    (hd : dOf c1 c2 ≠ 0) :
    hOf radius2 c2 radius1 c1 = hOf radius1 c1 radius2 c2 := by
  rw [hOf, hOf, diffOf_swap radius1 c1 radius2 c2 hd]

theorem pt1Of_swap (radius1 : ℝ) (c1 : Vector2) (radius2 : ℝ) (c2 : Vector2)
    (hd : dOf c1 c2 ≠ 0) :
    pt1Of radius2 c2 radius1 c1 = pt2Of radius1 c1 radius2 c2 := by
  ext <;>
    simp only [pt1Of_x, pt1Of_y, pt2Of_x, pt2Of_y,
      midpointOf_swap radius1 c1 radius2 c2 hd, hOf_swap radius1 c1 radius2 c2 hd,
      dOf_swap c1 c2] <;>
    ring

theorem pt2Of_swap (radius1 : ℝ) (c1 : Vector2) (radius2 : ℝ) (c2 : Vector2)
    (hd : dOf c1 c2 ≠ 0) :
    pt2Of radius2 c2 radius1 c1 = pt1Of radius1 c1 radius2 c2 := by
  ext <;>
    simp only [pt1Of_x, pt1Of_y, pt2Of_x, pt2Of_y,
      midpointOf_swap radius1 c1 radius2 c2 hd, hOf_swap radius1 c1 radius2 c2 hd,
      dOf_swap c1 c2] <;>
    ring

/-! ## The returned intersection points lie on both circles

For nonnegative radii, in exact arithmetic the candidate points `pt1`/`pt2`
are at distance exactly `radius1` from `center1` and exactly `radius2` from
`center2`, whenever the non-degenerate branch with `diff ≥ 0` is reached. -/

theorem chord_sq_center1 (radius1 : ℝ) (c1 : Vector2) (radius2 : ℝ) (c2 : Vector2)
    (hdiff : 0 ≤ diffOf radius1 c1 radius2 c2) (s : ℝ) (hs : s ^ 2 = 1) :
    ((c2.x - c1.x) * aOf radius1 c1 radius2 c2 +
        s * hOf radius1 c1 radius2 c2 * (c2.y - c1.y)) ^ 2 +
      ((c2.y - c1.y) * aOf radius1 c1 radius2 c2 -
        s * hOf radius1 c1 radius2 c2 * (c2.x - c1.x)) ^ 2 =
      (radius1 * dOf c1 c2) ^ 2 := by
  have hh2 : hOf radius1 c1 radius2 c2 ^ 2 =
      radius1 * radius1 - aOf radius1 c1 radius2 c2 * aOf radius1 c1 radius2 c2 := by
    rw [hOf_sq hdiff, diffOf]
  have hd2 : dOf c1 c2 ^ 2 = (c2.x - c1.x) ^ 2 + (c2.y - c1.y) ^ 2 := by
    rw [dOf_sq, d2Of_expand]
  linear_combination
    (hOf radius1 c1 radius2 c2 ^ 2 * ((c2.x - c1.x) ^ 2 + (c2.y - c1.y) ^ 2)) * hs +
      ((c2.x - c1.x) ^ 2 + (c2.y - c1.y) ^ 2) * hh2 - radius1 ^ 2 * hd2

theorem chord_sq_center2 (radius1 : ℝ) (c1 : Vector2) (radius2 : ℝ) (c2 : Vector2)
    (hd : dOf c1 c2 ≠ 0) (hdiff : 0 ≤ diffOf radius1 c1 radius2 c2) (s : ℝ)
    (hs : s ^ 2 = 1) :
    ((c2.x - c1.x) * (aOf radius1 c1 radius2 c2 - dOf c1 c2) +
        s * hOf radius1 c1 radius2 c2 * (c2.y - c1.y)) ^ 2 +
      ((c2.y - c1.y) * (aOf radius1 c1 radius2 c2 - dOf c1 c2) -
        s * hOf radius1 c1 radius2 c2 * (c2.x - c1.x)) ^ 2 =
      (radius2 * dOf c1 c2) ^ 2 := by
  have hh2 : hOf radius1 c1 radius2 c2 ^ 2 =
      radius1 * radius1 - aOf radius1 c1 radius2 c2 * aOf radius1 c1 radius2 c2 := by
    rw [hOf_sq hdiff, diffOf]
  have hd2 : dOf c1 c2 ^ 2 = (c2.x - c1.x) ^ 2 + (c2.y - c1.y) ^ 2 := by
    rw [dOf_sq, d2Of_expand]
  have ha : aOf radius1 c1 radius2 c2 * (2 * dOf c1 c2) =
      radius1 * radius1 - radius2 * radius2 +
        ((c2.x - c1.x) ^ 2 + (c2.y - c1.y) ^ 2) := by
    rw [aOf_mul radius1 c1 radius2 c2 hd, d2Of_expand]
  linear_combination
    (hOf radius1 c1 radius2 c2 ^ 2 * ((c2.x - c1.x) ^ 2 + (c2.y - c1.y) ^ 2)) * hs +
      ((c2.x - c1.x) ^ 2 + (c2.y - c1.y) ^ 2) * hh2 -
      ((c2.x - c1.x) ^ 2 + (c2.y - c1.y) ^ 2) * ha +
      (((c2.x - c1.x) ^ 2 + (c2.y - c1.y) ^ 2) - radius2 ^ 2) * hd2

theorem distTo_pt1_center1 (radius1 : ℝ) (c1 : Vector2) (radius2 : ℝ) (c2 : Vector2)
    (hd : dOf c1 c2 ≠ 0) (hdiff : 0 ≤ diffOf radius1 c1 radius2 c2) (hr1 : 0 ≤ radius1) :
    Vector2.distTo (pt1Of radius1 c1 radius2 c2) c1 = radius1 := by
  have hx : (pt1Of radius1 c1 radius2 c2).x - c1.x =
      ((c2.x - c1.x) * aOf radius1 c1 radius2 c2 +
        1 * hOf radius1 c1 radius2 c2 * (c2.y - c1.y)) / dOf c1 c2 := by
    simp only [pt1Of_x, midpointOf_x]
    field_simp
    ring
  have hy : (pt1Of radius1 c1 radius2 c2).y - c1.y =
      ((c2.y - c1.y) * aOf radius1 c1 radius2 c2 -
        1 * hOf radius1 c1 radius2 c2 * (c2.x - c1.x)) / dOf c1 c2 := by
    simp only [pt1Of_y, midpointOf_y]
    field_simp
    ring
  rw [Vector2.distTo, hx, hy, div_pow, div_pow, div_add_div_same,
    chord_sq_center1 radius1 c1 radius2 c2 hdiff 1 (by norm_num), mul_pow,
    mul_div_assoc, div_self (pow_ne_zero 2 hd), mul_one, Real.sqrt_sq hr1]

theorem distTo_pt2_center1 (radius1 : ℝ) (c1 : Vector2) (radius2 : ℝ) (c2 : Vector2)
    (hd : dOf c1 c2 ≠ 0) (hdiff : 0 ≤ diffOf radius1 c1 radius2 c2) (hr1 : 0 ≤ radius1) :
    Vector2.distTo (pt2Of radius1 c1 radius2 c2) c1 = radius1 := by
  have hx : (pt2Of radius1 c1 radius2 c2).x - c1.x =
      ((c2.x - c1.x) * aOf radius1 c1 radius2 c2 +
        (-1) * hOf radius1 c1 radius2 c2 * (c2.y - c1.y)) / dOf c1 c2 := by
    simp only [pt2Of_x, midpointOf_x]
    field_simp
    ring
  have hy : (pt2Of radius1 c1 radius2 c2).y - c1.y =
      ((c2.y - c1.y) * aOf radius1 c1 radius2 c2 -
        (-1) * hOf radius1 c1 radius2 c2 * (c2.x - c1.x)) / dOf c1 c2 := by
    simp only [pt2Of_y, midpointOf_y]
    field_simp
    ring
  rw [Vector2.distTo, hx, hy, div_pow, div_pow, div_add_div_same,
    chord_sq_center1 radius1 c1 radius2 c2 hdiff (-1) (by norm_num), mul_pow,
    mul_div_assoc, div_self (pow_ne_zero 2 hd), mul_one, Real.sqrt_sq hr1]

theorem distTo_pt1_center2 (radius1 : ℝ) (c1 : Vector2) (radius2 : ℝ) (c2 : Vector2)
    (hd : dOf c1 c2 ≠ 0) (hdiff : 0 ≤ diffOf radius1 c1 radius2 c2) (hr2 : 0 ≤ radius2) :
    Vector2.distTo (pt1Of radius1 c1 radius2 c2) c2 = radius2 := by
  have hx : (pt1Of radius1 c1 radius2 c2).x - c2.x =
      ((c2.x - c1.x) * (aOf radius1 c1 radius2 c2 - dOf c1 c2) +
        1 * hOf radius1 c1 radius2 c2 * (c2.y - c1.y)) / dOf c1 c2 := by
    simp only [pt1Of_x, midpointOf_x]
    field_simp
    ring
  have hy : (pt1Of radius1 c1 radius2 c2).y - c2.y =
      ((c2.y - c1.y) * (aOf radius1 c1 radius2 c2 - dOf c1 c2) -
        1 * hOf radius1 c1 radius2 c2 * (c2.x - c1.x)) / dOf c1 c2 := by
    simp only [pt1Of_y, midpointOf_y]
    field_simp
    ring
  rw [Vector2.distTo, hx, hy, div_pow, div_pow, div_add_div_same,
    chord_sq_center2 radius1 c1 radius2 c2 hd hdiff 1 (by norm_num), mul_pow,
    mul_div_assoc, div_self (pow_ne_zero 2 hd), mul_one, Real.sqrt_sq hr2]

theorem distTo_pt2_center2 (radius1 : ℝ) (c1 : Vector2) (radius2 : ℝ) (c2 : Vector2)
    (hd : dOf c1 c2 ≠ 0) (hdiff : 0 ≤ diffOf radius1 c1 radius2 c2) (hr2 : 0 ≤ radius2) :
    Vector2.distTo (pt2Of radius1 c1 radius2 c2) c2 = radius2 := by
  have hx : (pt2Of radius1 c1 radius2 c2).x - c2.x =
      ((c2.x - c1.x) * (aOf radius1 c1 radius2 c2 - dOf c1 c2) +
        (-1) * hOf radius1 c1 radius2 c2 * (c2.y - c1.y)) / dOf c1 c2 := by
    simp only [pt2Of_x, midpointOf_x]
    field_simp
    ring
  have hy : (pt2Of radius1 c1 radius2 c2).y - c2.y =
      ((c2.y - c1.y) * (aOf radius1 c1 radius2 c2 - dOf c1 c2) -
        (-1) * hOf radius1 c1 radius2 c2 * (c2.x - c1.x)) / dOf c1 c2 := by
    simp only [pt2Of_y, midpointOf_y]
    field_simp
    ring
  rw [Vector2.distTo, hx, hy, div_pow, div_pow, div_add_div_same,
    chord_sq_center2 radius1 c1 radius2 c2 hd hdiff (-1) (by norm_num), mul_pow,
    mul_div_assoc, div_self (pow_ne_zero 2 hd), mul_one, Real.sqrt_sq hr2]

/-! ## Concrete evaluations

Sample configurations with rational data, used to instantiate the claim
theorems and to exhibit counterexamples. -/

theorem dOf_00_80 : dOf ⟨0, 0⟩ ⟨8, 0⟩ = 8 := by
  rw [dOf]
  exact sqrt_of_sq_eq _ 8 (by norm_num) (by rw [d2Of_expand]; norm_num)

theorem aOf_5_5 : aOf 5 ⟨0, 0⟩ 5 ⟨8, 0⟩ = 4 := by
  rw [aOf, d2Of_expand, dOf_00_80]
  norm_num

theorem diffOf_5_5 : diffOf 5 ⟨0, 0⟩ 5 ⟨8, 0⟩ = 9 := by
  rw [diffOf, aOf_5_5]
  norm_num

theorem hOf_5_5 : hOf 5 ⟨0, 0⟩ 5 ⟨8, 0⟩ = 3 := by
  rw [hOf, diffOf_5_5]
  exact sqrt_of_sq_eq _ 3 (by norm_num) (by norm_num)

theorem midpointOf_5_5 : midpointOf 5 ⟨0, 0⟩ 5 ⟨8, 0⟩ = ⟨4, 0⟩ := by
  ext <;> simp [aOf_5_5, dOf_00_80]
  norm_num

theorem pt1Of_5_5 : pt1Of 5 ⟨0, 0⟩ 5 ⟨8, 0⟩ = ⟨4, -3⟩ := by
  ext <;> simp [midpointOf_5_5, hOf_5_5, dOf_00_80]

theorem pt2Of_5_5 : pt2Of 5 ⟨0, 0⟩ 5 ⟨8, 0⟩ = ⟨4, 3⟩ := by
  ext <;> simp [midpointOf_5_5, hOf_5_5, dOf_00_80]

theorem intr_5_5 : circle_circle_intr (1 / 100) 5 ⟨0, 0⟩ 5 ⟨8, 0⟩ =
    CircleCircleIntr.TwoIntersects ⟨4, -3⟩ ⟨4, 3⟩ := by
  rw [circle_circle_intr_eq, dOf_00_80, diffOf_5_5, pt1Of_5_5, pt2Of_5_5]
  rw [if_neg (by rw [fuzzy_eq_zero, abs_of_nonneg (by norm_num : (0 : ℝ) ≤ 8)]; norm_num)]
  rw [if_neg (by
    push_neg
    refine ⟨by rw [fuzzy_lt]; norm_num, ?_⟩
    rw [fuzzy_gt, show |(5 : ℝ) - 5| = 0 by simp]
    norm_num)]
  rw [if_neg (by norm_num)]
  rw [if_neg (by
    rintro ⟨-, hy⟩
    rw [fuzzy_eq, show (⟨4, -3⟩ : Vector2).y = -3 from rfl,
      show (⟨4, 3⟩ : Vector2).y = 3 from rfl,
      show |(-3 : ℝ) - 3| = 6 by rw [abs_of_nonpos] <;> norm_num] at hy
    norm_num at hy)]

theorem intr_5_5_eps2 : circle_circle_intr 2 5 ⟨0, 0⟩ 5 ⟨8, 0⟩ =
    CircleCircleIntr.TwoIntersects ⟨4, -3⟩ ⟨4, 3⟩ := by
  rw [circle_circle_intr_eq, dOf_00_80, diffOf_5_5, pt1Of_5_5, pt2Of_5_5]
  rw [if_neg (by rw [fuzzy_eq_zero, abs_of_nonneg (by norm_num : (0 : ℝ) ≤ 8)]; norm_num)]
  rw [if_neg (by
    push_neg
    refine ⟨by rw [fuzzy_lt]; norm_num, ?_⟩
    rw [fuzzy_gt, show |(5 : ℝ) - 5| = 0 by simp]
    norm_num)]
  rw [if_neg (by norm_num)]
  rw [if_neg (by
    rintro ⟨-, hy⟩
    rw [fuzzy_eq, show (⟨4, -3⟩ : Vector2).y = -3 from rfl,
      show (⟨4, 3⟩ : Vector2).y = 3 from rfl,
      show |(-3 : ℝ) - 3| = 6 by rw [abs_of_nonpos] <;> norm_num] at hy
    norm_num at hy)]

theorem dOf_00_440 : dOf ⟨0, 0⟩ ⟨44, 0⟩ = 44 := by
  rw [dOf]
  exact sqrt_of_sq_eq _ 44 (by norm_num) (by rw [d2Of_expand]; norm_num)

theorem aOf_n15_37 : aOf (-15) ⟨0, 0⟩ 37 ⟨44, 0⟩ = 9 := by
  rw [aOf, d2Of_expand, dOf_00_440]
  norm_num

theorem diffOf_n15_37 : diffOf (-15) ⟨0, 0⟩ 37 ⟨44, 0⟩ = 144 := by
  rw [diffOf, aOf_n15_37]
  norm_num

theorem hOf_n15_37 : hOf (-15) ⟨0, 0⟩ 37 ⟨44, 0⟩ = 12 := by
  rw [hOf, diffOf_n15_37]
  exact sqrt_of_sq_eq _ 12 (by norm_num) (by norm_num)

theorem midpointOf_n15_37 : midpointOf (-15) ⟨0, 0⟩ 37 ⟨44, 0⟩ = ⟨9, 0⟩ := by
  ext <;> simp [aOf_n15_37, dOf_00_440]
  norm_num

theorem pt1Of_n15_37 : pt1Of (-15) ⟨0, 0⟩ 37 ⟨44, 0⟩ = ⟨9, -12⟩ := by
  ext <;> simp [midpointOf_n15_37, hOf_n15_37, dOf_00_440]

theorem pt2Of_n15_37 : pt2Of (-15) ⟨0, 0⟩ 37 ⟨44, 0⟩ = ⟨9, 12⟩ := by
  ext <;> simp [midpointOf_n15_37, hOf_n15_37, dOf_00_440]

theorem intr_n15_37 : circle_circle_intr 23 (-15) ⟨0, 0⟩ 37 ⟨44, 0⟩ =
    CircleCircleIntr.TwoIntersects ⟨9, -12⟩ ⟨9, 12⟩ := by
  rw [circle_circle_intr_eq, dOf_00_440, diffOf_n15_37, pt1Of_n15_37, pt2Of_n15_37]
  rw [if_neg (by rw [fuzzy_eq_zero, abs_of_nonneg (by norm_num : (0 : ℝ) ≤ 44)]; norm_num)]
  rw [if_neg (by
    push_neg
    refine ⟨by rw [fuzzy_lt]; norm_num, ?_⟩
    rw [fuzzy_gt, show |(-15 : ℝ) - 37| = 52 by rw [abs_of_nonpos] <;> norm_num]
    norm_num)]
  rw [if_neg (by norm_num)]
  rw [if_neg (by
    rintro ⟨-, hy⟩
    rw [fuzzy_eq, show (⟨9, -12⟩ : Vector2).y = -12 from rfl,
      show (⟨9, 12⟩ : Vector2).y = 12 from rfl,
      show |(-12 : ℝ) - 12| = 24 by rw [abs_of_nonpos] <;> norm_num] at hy
    norm_num at hy)]

/-! ## Claim theorems -/

/-- C3: for every pair of inputs with the center distance fuzzy-equal to zero,
`circle_circle_intr` returns `Overlapping` when `radius1` is fuzzy-equal to
`radius2` and `NoIntersect` otherwise; the classification is decided by the
two fuzzy tests alone, before any of the non-degenerate quantities (`a`,
`midpoint`, `diff`) enter. -/
theorem same_center_classification (eps radius1 : ℝ) (center1 : Vector2) (radius2 : ℝ)
    (center2 : Vector2) (h : fuzzy_eq_zero eps (dOf center1 center2)) :
    circle_circle_intr eps radius1 center1 radius2 center2 =
      if fuzzy_eq eps radius1 radius2 then CircleCircleIntr.Overlapping
      else CircleCircleIntr.NoIntersect := by
  rw [circle_circle_intr_eq, if_pos h]

/-- Witness for C3: concentric unit circles are classified `Overlapping`. -/
theorem same_center_classification_witness :
    fuzzy_eq_zero (1 / 100) (dOf ⟨0, 0⟩ ⟨0, 0⟩) ∧
      circle_circle_intr (1 / 100) 1 ⟨0, 0⟩ 1 ⟨0, 0⟩ = CircleCircleIntr.Overlapping := by
  have hd : dOf ⟨0, 0⟩ ⟨0, 0⟩ = 0 := by
    rw [dOf]
    exact sqrt_of_sq_eq _ 0 le_rfl (by rw [d2Of_expand]; norm_num)
  have hz : fuzzy_eq_zero (1 / 100) (dOf ⟨0, 0⟩ ⟨0, 0⟩) := by
    rw [fuzzy_eq_zero, hd]
    norm_num
  refine ⟨hz, ?_⟩
  rw [same_center_classification (1 / 100) 1 ⟨0, 0⟩ 1 ⟨0, 0⟩ hz,
    if_pos (fuzzy_eq_refl (by norm_num) 1)]

/-- C4: for every pair of inputs whose center distance is not fuzzy-zero, if the
distance is not fuzzy-less-than the sum of radii or not fuzzy-greater-than the
absolute difference of radii, the result is `NoIntersect`. -/
theorem range_rejection (eps radius1 : ℝ) (center1 : Vector2) (radius2 : ℝ)
    (center2 : Vector2) (h1 : ¬ fuzzy_eq_zero eps (dOf center1 center2))
    (h2 : ¬ fuzzy_lt eps (dOf center1 center2) (radius1 + radius2) ∨
      ¬ fuzzy_gt eps (dOf center1 center2) |radius1 - radius2|) :
    circle_circle_intr eps radius1 center1 radius2 center2 =
      CircleCircleIntr.NoIntersect := by
  rw [circle_circle_intr_eq, if_neg h1, if_pos h2]

/-- Witness for C4: unit circles three units apart are classified `NoIntersect`. -/
theorem range_rejection_witness :
    ¬ fuzzy_eq_zero (1 / 100) (dOf ⟨0, 0⟩ ⟨3, 0⟩) ∧
      (¬ fuzzy_lt (1 / 100) (dOf ⟨0, 0⟩ ⟨3, 0⟩) (1 + 1) ∨
        ¬ fuzzy_gt (1 / 100) (dOf ⟨0, 0⟩ ⟨3, 0⟩) |1 - 1|) ∧
      circle_circle_intr (1 / 100) 1 ⟨0, 0⟩ 1 ⟨3, 0⟩ = CircleCircleIntr.NoIntersect := by
  have hd : dOf ⟨0, 0⟩ ⟨3, 0⟩ = 3 := by
    rw [dOf]
    exact sqrt_of_sq_eq _ 3 (by norm_num) (by rw [d2Of_expand]; norm_num)
  have h1 : ¬ fuzzy_eq_zero (1 / 100) (dOf ⟨0, 0⟩ ⟨3, 0⟩) := by
    rw [fuzzy_eq_zero, hd, abs_of_nonneg (by norm_num : (0 : ℝ) ≤ 3)]
    norm_num
  have h2 : ¬ fuzzy_lt (1 / 100) (dOf ⟨0, 0⟩ ⟨3, 0⟩) (1 + 1) := by
    rw [fuzzy_lt, hd]
    norm_num
  exact ⟨h1, Or.inl h2, range_rejection (1 / 100) 1 ⟨0, 0⟩ 1 ⟨3, 0⟩ h1 (Or.inl h2)⟩

/-- C5: on the non-degenerate branch, when `diff = radius1² − a²` is negative
under the exact comparison, the result is `TangentIntersect` at
`midpoint = center1 + cv · (a/d)` with `a = (radius1² − radius2² + d²)/(2d)`. -/
theorem tangent_negative_diff (eps radius1 : ℝ) (center1 : Vector2) (radius2 : ℝ)
    (center2 : Vector2) (h1 : ¬ fuzzy_eq_zero eps (dOf center1 center2))
    (h2 : fuzzy_lt eps (dOf center1 center2) (radius1 + radius2))
    (h3 : fuzzy_gt eps (dOf center1 center2) |radius1 - radius2|)
    (h4 : diffOf radius1 center1 radius2 center2 < 0) :
    circle_circle_intr eps radius1 center1 radius2 center2 =
      CircleCircleIntr.TangentIntersect
        (center1 + (cvOf center1 center2).scale
          (aOf radius1 center1 radius2 center2 / dOf center1 center2)) := by
  rw [circle_circle_intr_eq, if_neg h1, if_neg (by push_neg; exact ⟨h2, h3⟩), if_pos h4]
  rw [midpointOf]

/-- C6: on the non-degenerate branch with `diff ≥ 0`, the two candidate points
are `midpoint ± (h/d)·(cv.y, −cv.x)` with `h = sqrt diff`; the result is
`TangentIntersect point1` when the two candidates are fuzzy-equal
component-wise and `TwoIntersects point1 point2`, in that order, otherwise. -/
theorem two_intersect_formula (eps radius1 : ℝ) (center1 : Vector2) (radius2 : ℝ)
    (center2 : Vector2) (h1 : ¬ fuzzy_eq_zero eps (dOf center1 center2))
    (h2 : fuzzy_lt eps (dOf center1 center2) (radius1 + radius2))
    (h3 : fuzzy_gt eps (dOf center1 center2) |radius1 - radius2|)
    (h4 : 0 ≤ diffOf radius1 center1 radius2 center2) :
    circle_circle_intr eps radius1 center1 radius2 center2 =
      if Vector2.fuzzy_eq eps (pt1Of radius1 center1 radius2 center2)
          (pt2Of radius1 center1 radius2 center2) then
        CircleCircleIntr.TangentIntersect (pt1Of radius1 center1 radius2 center2)
      else
        CircleCircleIntr.TwoIntersects (pt1Of radius1 center1 radius2 center2)
          (pt2Of radius1 center1 radius2 center2) := by
  rw [circle_circle_intr_eq, if_neg h1, if_neg (by push_neg; exact ⟨h2, h3⟩),
    if_neg (not_lt.mpr h4)]

/-- Witness for C6: the radius-5 circles eight units apart have `diff = 9 ≥ 0`
and produce `TwoIntersects (4, −3) (4, 3)` in that order. -/
theorem two_intersect_formula_witness :
    0 ≤ diffOf 5 ⟨0, 0⟩ 5 ⟨8, 0⟩ ∧
      circle_circle_intr (1 / 100) 5 ⟨0, 0⟩ 5 ⟨8, 0⟩ =
        CircleCircleIntr.TwoIntersects ⟨4, -3⟩ ⟨4, 3⟩ := by
  have h1 : ¬ fuzzy_eq_zero (1 / 100) (dOf ⟨0, 0⟩ ⟨8, 0⟩) := by
    rw [fuzzy_eq_zero, dOf_00_80, abs_of_nonneg (by norm_num : (0 : ℝ) ≤ 8)]
    norm_num
  have h2 : fuzzy_lt (1 / 100) (dOf ⟨0, 0⟩ ⟨8, 0⟩) (5 + 5) := by
    rw [fuzzy_lt, dOf_00_80]
    norm_num
  have h3 : fuzzy_gt (1 / 100) (dOf ⟨0, 0⟩ ⟨8, 0⟩) |(5 : ℝ) - 5| := by
    rw [fuzzy_gt, dOf_00_80, show |(5 : ℝ) - 5| = 0 by simp]
    norm_num
  have h4 : (0 : ℝ) ≤ diffOf 5 ⟨0, 0⟩ 5 ⟨8, 0⟩ := by
    rw [diffOf_5_5]
    norm_num
  have h := two_intersect_formula (1 / 100) 5 ⟨0, 0⟩ 5 ⟨8, 0⟩ h1 h2 h3 h4
  rw [pt1Of_5_5, pt2Of_5_5] at h
  rw [if_neg (by
    rintro ⟨-, hy⟩
    rw [fuzzy_eq, show (⟨4, -3⟩ : Vector2).y = -3 from rfl,
      show (⟨4, 3⟩ : Vector2).y = 3 from rfl,
      show |(-3 : ℝ) - 3| = 6 by rw [abs_of_nonpos] <;> norm_num] at hy
    norm_num at hy)] at h
  exact ⟨h4, h⟩

/-- Witness for C5: radius 5 at the origin against radius 1 at (3.9, 0) with
tolerance 0.2 reaches the non-degenerate branch with `diff < 0` and yields a
tangent intersect at the midpoint. -/
theorem tangent_negative_diff_witness :
    diffOf 5 ⟨0, 0⟩ 1 ⟨39 / 10, 0⟩ < 0 ∧
      circle_circle_intr (1 / 5) 5 ⟨0, 0⟩ 1 ⟨39 / 10, 0⟩ =
        CircleCircleIntr.TangentIntersect
          (⟨0, 0⟩ + (cvOf ⟨0, 0⟩ ⟨39 / 10, 0⟩).scale
            (aOf 5 ⟨0, 0⟩ 1 ⟨39 / 10, 0⟩ / dOf ⟨0, 0⟩ ⟨39 / 10, 0⟩)) := by
  have hd : dOf ⟨0, 0⟩ ⟨39 / 10, 0⟩ = 39 / 10 := by
    rw [dOf]
    exact sqrt_of_sq_eq _ (39 / 10) (by norm_num) (by rw [d2Of_expand]; norm_num)
  have ha : aOf 5 ⟨0, 0⟩ 1 ⟨39 / 10, 0⟩ = 1307 / 260 := by
    rw [aOf, d2Of_expand, hd]
    norm_num
  have h1 : ¬ fuzzy_eq_zero (1 / 5) (dOf ⟨0, 0⟩ ⟨39 / 10, 0⟩) := by
    rw [fuzzy_eq_zero, hd, abs_of_nonneg (by norm_num : (0 : ℝ) ≤ 39 / 10)]
    norm_num
  have h2 : fuzzy_lt (1 / 5) (dOf ⟨0, 0⟩ ⟨39 / 10, 0⟩) (5 + 1) := by
    rw [fuzzy_lt, hd]
    norm_num
  have h3 : fuzzy_gt (1 / 5) (dOf ⟨0, 0⟩ ⟨39 / 10, 0⟩) |(5 : ℝ) - 1| := by
    rw [fuzzy_gt, hd, show (5 : ℝ) - 1 = 4 by norm_num,
      abs_of_nonneg (by norm_num : (0 : ℝ) ≤ 4)]
    norm_num
  have h4 : diffOf 5 ⟨0, 0⟩ 1 ⟨39 / 10, 0⟩ < 0 := by
    rw [diffOf, ha]
    norm_num
  exact ⟨h4, tangent_negative_diff (1 / 5) 5 ⟨0, 0⟩ 1 ⟨39 / 10, 0⟩ h1 h2 h3 h4⟩

/-- C1 (amended): for nonnegative radii and a nonnegative tolerance, whenever
`circle_circle_intr` returns `TwoIntersects{point1, point2}`, each returned
point is at distance fuzzy-equal to `radius1` from `center1` and fuzzy-equal
to `radius2` from `center2` (in fact at exactly those distances, in exact
arithmetic). -/
theorem two_intersects_on_both_circles (eps radius1 : ℝ) (center1 : Vector2)
    (radius2 : ℝ) (center2 : Vector2) (p1 p2 : Vector2)
    (heps : 0 ≤ eps) (hr1 : 0 ≤ radius1) (hr2 : 0 ≤ radius2)
    (h : circle_circle_intr eps radius1 center1 radius2 center2 =
      CircleCircleIntr.TwoIntersects p1 p2) :
    (fuzzy_eq eps (p1.distTo center1) radius1 ∧
      fuzzy_eq eps (p1.distTo center2) radius2) ∧
    (fuzzy_eq eps (p2.distTo center1) radius1 ∧
      fuzzy_eq eps (p2.distTo center2) radius2) := by
  rw [circle_circle_intr_eq] at h
  split_ifs at h with hz hr hrng hdiff hfz
  simp only [CircleCircleIntr.TwoIntersects.injEq] at h
  have hd : dOf center1 center2 ≠ 0 := dOf_ne_zero heps hz
  have hdiff' : 0 ≤ diffOf radius1 center1 radius2 center2 := not_lt.mp hdiff
  obtain ⟨h1, h2⟩ := h
  subst h1
  subst h2
  refine ⟨⟨?_, ?_⟩, ?_, ?_⟩
  · rw [distTo_pt1_center1 radius1 center1 radius2 center2 hd hdiff' hr1]
    exact fuzzy_eq_refl heps radius1
  · rw [distTo_pt1_center2 radius1 center1 radius2 center2 hd hdiff' hr2]
    exact fuzzy_eq_refl heps radius2
  · rw [distTo_pt2_center1 radius1 center1 radius2 center2 hd hdiff' hr1]
    exact fuzzy_eq_refl heps radius1
  · rw [distTo_pt2_center2 radius1 center1 radius2 center2 hd hdiff' hr2]
    exact fuzzy_eq_refl heps radius2

/-- Counterexample to C1 as stated over all finite inputs: with a negative first
radius (−15), the call still reaches `TwoIntersects`, but the returned points
are at distance 15 from `center1`, which is not fuzzy-equal to −15. -/
theorem two_intersects_on_both_circles_counterexample :
    circle_circle_intr 23 (-15) ⟨0, 0⟩ 37 ⟨44, 0⟩ =
      CircleCircleIntr.TwoIntersects ⟨9, -12⟩ ⟨9, 12⟩ ∧
    ¬ fuzzy_eq 23 (Vector2.distTo ⟨9, -12⟩ ⟨0, 0⟩) (-15) := by
  refine ⟨intr_n15_37, ?_⟩
  have hdist : Vector2.distTo ⟨9, -12⟩ ⟨0, 0⟩ = 15 := by
    rw [Vector2.distTo]
    exact sqrt_of_sq_eq _ 15 (by norm_num) (by norm_num)
  rw [fuzzy_eq, hdist, show (15 : ℝ) - -15 = 30 by norm_num,
    abs_of_nonneg (by norm_num : (0 : ℝ) ≤ 30)]
  norm_num

/-- Witness for C1 (amended): the two radius-5 circles eight units apart return
points (4, −3) and (4, 3), both at distance fuzzy-equal to 5 from each center. -/
theorem two_intersects_on_both_circles_witness :
    circle_circle_intr (1 / 100) 5 ⟨0, 0⟩ 5 ⟨8, 0⟩ =
      CircleCircleIntr.TwoIntersects ⟨4, -3⟩ ⟨4, 3⟩ ∧
    ((fuzzy_eq (1 / 100) (Vector2.distTo ⟨4, -3⟩ ⟨0, 0⟩) 5 ∧
        fuzzy_eq (1 / 100) (Vector2.distTo ⟨4, -3⟩ ⟨8, 0⟩) 5) ∧
      (fuzzy_eq (1 / 100) (Vector2.distTo ⟨4, 3⟩ ⟨0, 0⟩) 5 ∧
        fuzzy_eq (1 / 100) (Vector2.distTo ⟨4, 3⟩ ⟨8, 0⟩) 5)) :=
  ⟨intr_5_5,
    two_intersects_on_both_circles (1 / 100) 5 ⟨0, 0⟩ 5 ⟨8, 0⟩ ⟨4, -3⟩ ⟨4, 3⟩
      (by norm_num) (by norm_num) (by norm_num) intr_5_5⟩

/-- Auxiliary characterization: the call with the two circles exchanged follows
the same branch structure as the original call, with the two candidate points
exchanged. -/
theorem circle_circle_intr_swap_eq (eps radius1 : ℝ) (center1 : Vector2) (radius2 : ℝ)
    (center2 : Vector2) (heps : 0 ≤ eps) :
    circle_circle_intr eps radius2 center2 radius1 center1 =
      if fuzzy_eq_zero eps (dOf center1 center2) then
        if fuzzy_eq eps radius1 radius2 then CircleCircleIntr.Overlapping
        else CircleCircleIntr.NoIntersect
      else
        if ¬ fuzzy_lt eps (dOf center1 center2) (radius1 + radius2) ∨
            ¬ fuzzy_gt eps (dOf center1 center2) |radius1 - radius2| then
          CircleCircleIntr.NoIntersect
        else
          if diffOf radius1 center1 radius2 center2 < 0 then
            CircleCircleIntr.TangentIntersect (midpointOf radius1 center1 radius2 center2)
          else
            if Vector2.fuzzy_eq eps (pt1Of radius1 center1 radius2 center2)
                (pt2Of radius1 center1 radius2 center2) then
              CircleCircleIntr.TangentIntersect (pt2Of radius1 center1 radius2 center2)
            else
              CircleCircleIntr.TwoIntersects (pt2Of radius1 center1 radius2 center2)
                (pt1Of radius1 center1 radius2 center2) := by
  rw [circle_circle_intr_eq eps radius2 center2 radius1 center1, dOf_swap center1 center2,
    add_comm radius2 radius1, abs_sub_comm radius2 radius1]
  by_cases hz : fuzzy_eq_zero eps (dOf center1 center2)
  · rw [if_pos hz, if_pos hz]
    by_cases hr : fuzzy_eq eps radius1 radius2
    · rw [if_pos (fuzzy_eq_symm hr), if_pos hr]
    · rw [if_neg (fun hh => hr (fuzzy_eq_symm hh)), if_neg hr]
  · have hd : dOf center1 center2 ≠ 0 := dOf_ne_zero heps hz
    rw [if_neg hz, if_neg hz, diffOf_swap radius1 center1 radius2 center2 hd,
      midpointOf_swap radius1 center1 radius2 center2 hd,
      pt1Of_swap radius1 center1 radius2 center2 hd,
      pt2Of_swap radius1 center1 radius2 center2 hd,
      vector2_fuzzy_eq_comm eps (pt2Of radius1 center1 radius2 center2)
        (pt1Of radius1 center1 radius2 center2)]

/-- C2 (amended): exchanging the two circles yields a result with the same
variant tag; when both calls return `TwoIntersects` the swapped call returns
the same two points with `point1` and `point2` exchanged; when both calls
return `TangentIntersect` the two tangent points are fuzzy-equal
component-wise (they are equal on the `diff < 0` path and fuzzy-equal, not
necessarily equal, on the nearly-tangent path). -/
theorem circle_circle_intr_symm (eps radius1 : ℝ) (center1 : Vector2) (radius2 : ℝ)
    (center2 : Vector2) (heps : 0 ≤ eps) :
    sameVariant (circle_circle_intr eps radius1 center1 radius2 center2)
      (circle_circle_intr eps radius2 center2 radius1 center1) ∧
    (∀ p1 p2 q1 q2,
      circle_circle_intr eps radius1 center1 radius2 center2 =
        CircleCircleIntr.TwoIntersects p1 p2 →
      circle_circle_intr eps radius2 center2 radius1 center1 =
        CircleCircleIntr.TwoIntersects q1 q2 →
      q1 = p2 ∧ q2 = p1) ∧
    (∀ p q,
      circle_circle_intr eps radius1 center1 radius2 center2 =
        CircleCircleIntr.TangentIntersect p →
      circle_circle_intr eps radius2 center2 radius1 center1 =
        CircleCircleIntr.TangentIntersect q →
      Vector2.fuzzy_eq eps p q) := by
  have hswap := circle_circle_intr_swap_eq eps radius1 center1 radius2 center2 heps
  rw [circle_circle_intr_eq eps radius1 center1 radius2 center2]
  by_cases hz : fuzzy_eq_zero eps (dOf center1 center2)
  · rw [if_pos hz] at hswap ⊢
    by_cases hr : fuzzy_eq eps radius1 radius2
    · rw [if_pos hr] at hswap ⊢
      rw [hswap]
      exact ⟨trivial, fun p1 p2 q1 q2 hE _ => absurd hE (by simp),
        fun p q hE _ => absurd hE (by simp)⟩
    · rw [if_neg hr] at hswap ⊢
      rw [hswap]
      exact ⟨trivial, fun p1 p2 q1 q2 hE _ => absurd hE (by simp),
        fun p q hE _ => absurd hE (by simp)⟩
  · rw [if_neg hz] at hswap ⊢
    by_cases hrng : ¬ fuzzy_lt eps (dOf center1 center2) (radius1 + radius2) ∨
        ¬ fuzzy_gt eps (dOf center1 center2) |radius1 - radius2|
    · rw [if_pos hrng] at hswap ⊢
      rw [hswap]
      exact ⟨trivial, fun p1 p2 q1 q2 hE _ => absurd hE (by simp),
        fun p q hE _ => absurd hE (by simp)⟩
    · rw [if_neg hrng] at hswap ⊢
      by_cases hdiff : diffOf radius1 center1 radius2 center2 < 0
      · rw [if_pos hdiff] at hswap ⊢
        rw [hswap]
        refine ⟨trivial, fun p1 p2 q1 q2 hE _ => absurd hE (by simp), ?_⟩
        intro p q hE1 hE2
        simp only [CircleCircleIntr.TangentIntersect.injEq] at hE1 hE2
        subst hE1
        subst hE2
        exact vector2_fuzzy_eq_refl heps _
      · rw [if_neg hdiff] at hswap ⊢
        by_cases hfz : Vector2.fuzzy_eq eps (pt1Of radius1 center1 radius2 center2)
            (pt2Of radius1 center1 radius2 center2)
        · rw [if_pos hfz] at hswap ⊢
          rw [hswap]
          refine ⟨trivial, fun p1 p2 q1 q2 hE _ => absurd hE (by simp), ?_⟩
          intro p q hE1 hE2
          simp only [CircleCircleIntr.TangentIntersect.injEq] at hE1 hE2
          subst hE1
          subst hE2
          exact hfz
        · rw [if_neg hfz] at hswap ⊢
          rw [hswap]
          refine ⟨trivial, ?_, fun p q hE _ => absurd hE (by simp)⟩
          intro p1 p2 q1 q2 hE1 hE2
          simp only [CircleCircleIntr.TwoIntersects.injEq] at hE1 hE2
          exact ⟨hE2.1.symm.trans hE1.2, hE2.2.symm.trans hE1.1⟩

/-- Counterexample to C2 as stated: at tolerance 24 the circle pair
(radius 15 at the origin, radius 37 at (44, 0)) is classified
`TangentIntersect` in both argument orders, but the two tangent points differ:
(9, −12) against (9, 12). -/
theorem circle_circle_intr_symm_counterexample :
    circle_circle_intr 24 15 ⟨0, 0⟩ 37 ⟨44, 0⟩ =
      CircleCircleIntr.TangentIntersect ⟨9, -12⟩ ∧
    circle_circle_intr 24 37 ⟨44, 0⟩ 15 ⟨0, 0⟩ =
      CircleCircleIntr.TangentIntersect ⟨9, 12⟩ ∧
    (⟨9, -12⟩ : Vector2) ≠ ⟨9, 12⟩ := by
  have ha : aOf 15 ⟨0, 0⟩ 37 ⟨44, 0⟩ = 9 := by
    rw [aOf, d2Of_expand, dOf_00_440]
    norm_num
  have hdiff : diffOf 15 ⟨0, 0⟩ 37 ⟨44, 0⟩ = 144 := by
    rw [diffOf, ha]
    norm_num
  have hh : hOf 15 ⟨0, 0⟩ 37 ⟨44, 0⟩ = 12 := by
    rw [hOf, hdiff]
    exact sqrt_of_sq_eq _ 12 (by norm_num) (by norm_num)
  have hmid : midpointOf 15 ⟨0, 0⟩ 37 ⟨44, 0⟩ = ⟨9, 0⟩ := by
    ext <;> simp [ha, dOf_00_440]
    norm_num
  have hp1 : pt1Of 15 ⟨0, 0⟩ 37 ⟨44, 0⟩ = ⟨9, -12⟩ := by
    ext <;> simp [hmid, hh, dOf_00_440]
  have hp2 : pt2Of 15 ⟨0, 0⟩ 37 ⟨44, 0⟩ = ⟨9, 12⟩ := by
    ext <;> simp [hmid, hh, dOf_00_440]
  have hd0 : dOf ⟨0, 0⟩ ⟨44, 0⟩ ≠ 0 := by
    rw [dOf_00_440]
    norm_num
  have hz : ¬ fuzzy_eq_zero (24 : ℝ) (dOf ⟨0, 0⟩ ⟨44, 0⟩) := by
    rw [fuzzy_eq_zero, dOf_00_440, abs_of_nonneg (by norm_num : (0 : ℝ) ≤ 44)]
    norm_num
  have hrng : ¬ (¬ fuzzy_lt (24 : ℝ) (dOf ⟨0, 0⟩ ⟨44, 0⟩) (15 + 37) ∨
      ¬ fuzzy_gt (24 : ℝ) (dOf ⟨0, 0⟩ ⟨44, 0⟩) |(15 : ℝ) - 37|) := by
    push_neg
    refine ⟨by rw [fuzzy_lt, dOf_00_440]; norm_num, ?_⟩
    rw [fuzzy_gt, dOf_00_440, show |(15 : ℝ) - 37| = 22 by rw [abs_of_nonpos] <;> norm_num]
    norm_num
  have hfz : Vector2.fuzzy_eq (24 : ℝ) (pt1Of 15 ⟨0, 0⟩ 37 ⟨44, 0⟩)
      (pt2Of 15 ⟨0, 0⟩ 37 ⟨44, 0⟩) := by
    rw [hp1, hp2]
    constructor
    · rw [fuzzy_eq, sub_self, abs_zero]
      norm_num
    · rw [fuzzy_eq, show |(-12 : ℝ) - 12| = 24 by rw [abs_of_nonpos] <;> norm_num]
  refine ⟨?_, ?_, ?_⟩
  · rw [circle_circle_intr_eq, if_neg hz, if_neg hrng,
      if_neg (by rw [hdiff]; norm_num), if_pos hfz, hp1]
  · rw [circle_circle_intr_swap_eq 24 15 ⟨0, 0⟩ 37 ⟨44, 0⟩ (by norm_num), if_neg hz,
      if_neg hrng, if_neg (by rw [hdiff]; norm_num), if_pos hfz, hp2]
  · intro hcontra
    have := congrArg Vector2.y hcontra
    norm_num at this

/-- Witness for C2 (amended): instantiated at the radius-5 circles eight units
apart with tolerance 0.01. -/
theorem circle_circle_intr_symm_witness :
    (0 : ℝ) ≤ 1 / 100 ∧
      sameVariant (circle_circle_intr (1 / 100) 5 ⟨0, 0⟩ 5 ⟨8, 0⟩)
        (circle_circle_intr (1 / 100) 5 ⟨8, 0⟩ 5 ⟨0, 0⟩) :=
  ⟨by norm_num,
    (circle_circle_intr_symm (1 / 100) 5 ⟨0, 0⟩ 5 ⟨8, 0⟩ (by norm_num)).1⟩

/-- When `diff` computes to exactly zero the two candidate points coincide with
the midpoint and the result is a tangent intersect at the midpoint. -/
theorem tangent_of_diff_zero (eps radius1 : ℝ) (center1 : Vector2) (radius2 : ℝ)
    (center2 : Vector2) (heps : 0 ≤ eps)
    (hz : ¬ fuzzy_eq_zero eps (dOf center1 center2))
    (hlt : fuzzy_lt eps (dOf center1 center2) (radius1 + radius2))
    (hgt : fuzzy_gt eps (dOf center1 center2) |radius1 - radius2|)
    (hdiff0 : diffOf radius1 center1 radius2 center2 = 0) :
    circle_circle_intr eps radius1 center1 radius2 center2 =
      CircleCircleIntr.TangentIntersect (midpointOf radius1 center1 radius2 center2) := by
  have hh0 : hOf radius1 center1 radius2 center2 = 0 := by
    rw [hOf, hdiff0, Real.sqrt_zero]
  have hpt1 : pt1Of radius1 center1 radius2 center2 =
      midpointOf radius1 center1 radius2 center2 := by
    ext <;> simp [hh0]
  have hpt2 : pt2Of radius1 center1 radius2 center2 =
      midpointOf radius1 center1 radius2 center2 := by
    ext <;> simp [hh0]
  rw [circle_circle_intr_eq, if_neg hz, if_neg (by push_neg; exact ⟨hlt, hgt⟩),
    if_neg (by rw [hdiff0]; exact lt_irrefl 0), hpt1, hpt2,
    if_pos (vector2_fuzzy_eq_refl heps (midpointOf radius1 center1 radius2 center2))]

/-- C7 (amended): for nonnegative radii and a positive tolerance smaller than
the center distance, exact external tangency (`d = radius1 + radius2`) yields
`TangentIntersect` at a point on the segment between the centers at distance
`radius1` from `center1`, and exact internal tangency (`d = |radius1 −
radius2|`) yields `TangentIntersect`. -/
theorem tangency_classification (eps radius1 : ℝ) (center1 : Vector2) (radius2 : ℝ)
    (center2 : Vector2) (heps : 0 < eps) (hr1 : 0 ≤ radius1) (hr2 : 0 ≤ radius2)
    (hz : ¬ fuzzy_eq_zero eps (dOf center1 center2)) :
    (dOf center1 center2 = radius1 + radius2 →
      circle_circle_intr eps radius1 center1 radius2 center2 =
        CircleCircleIntr.TangentIntersect (midpointOf radius1 center1 radius2 center2) ∧
      Vector2.distTo (midpointOf radius1 center1 radius2 center2) center1 = radius1 ∧
      ∃ t, 0 ≤ t ∧ t ≤ 1 ∧
        midpointOf radius1 center1 radius2 center2 =
          center1 + (cvOf center1 center2).scale t) ∧
    (dOf center1 center2 = |radius1 - radius2| →
      ∃ p, circle_circle_intr eps radius1 center1 radius2 center2 =
        CircleCircleIntr.TangentIntersect p) := by
  have hDpos : 0 < dOf center1 center2 := dOf_pos heps.le hz
  have hd : dOf center1 center2 ≠ 0 := ne_of_gt hDpos
  constructor
  · intro hD
    have hsum : radius1 + radius2 ≠ 0 := by
      rw [← hD]
      exact hd
    have ha : aOf radius1 center1 radius2 center2 = radius1 := by
      have hd2 : d2Of center1 center2 = (radius1 + radius2) ^ 2 := by
        rw [← dOf_sq, hD]
      rw [aOf, hd2, hD]
      field_simp
      ring
    have hdiff0 : diffOf radius1 center1 radius2 center2 = 0 := by
      rw [diffOf, ha]
      ring
    have hlt : fuzzy_lt eps (dOf center1 center2) (radius1 + radius2) := by
      rw [fuzzy_lt, hD]
      linarith
    have habs : |radius1 - radius2| ≤ radius1 + radius2 :=
      abs_le.mpr ⟨by linarith, by linarith⟩
    have hgt : fuzzy_gt eps (dOf center1 center2) |radius1 - radius2| := by
      rw [fuzzy_gt, hD]
      linarith
    refine ⟨tangent_of_diff_zero eps radius1 center1 radius2 center2 heps.le hz hlt hgt
      hdiff0, ?_, ?_⟩
    · have hd2 : dOf center1 center2 ^ 2 = (center2.x - center1.x) ^ 2 +
          (center2.y - center1.y) ^ 2 := by
        rw [dOf_sq, d2Of_expand]
      rw [Vector2.distTo]
      apply sqrt_of_sq_eq _ radius1 hr1
      simp only [midpointOf_x, midpointOf_y, ha]
      field_simp
      linear_combination -radius1 ^ 2 * hd2
    · refine ⟨radius1 / dOf center1 center2, div_nonneg hr1 hDpos.le, ?_, ?_⟩
      · rw [div_le_one hDpos, hD]
        linarith
      · rw [midpointOf, ha]
  · intro hD
    have hD2 : dOf center1 center2 ^ 2 = (radius1 - radius2) ^ 2 := by
      rw [hD, sq_abs]
    have hd2' : d2Of center1 center2 = (radius1 - radius2) ^ 2 := by
      rw [← dOf_sq, hD2]
    have h1 : aOf radius1 center1 radius2 center2 * dOf center1 center2 =
        radius1 * (radius1 - radius2) := by
      have h2 := aOf_mul radius1 center1 radius2 center2 hd
      linear_combination (1 / 2 : ℝ) * h2 + (1 / 2 : ℝ) * hd2'
    have haval : aOf radius1 center1 radius2 center2 =
        radius1 * (radius1 - radius2) / dOf center1 center2 := by
      rw [eq_div_iff hd]
      exact h1
    have hdiff0 : diffOf radius1 center1 radius2 center2 = 0 := by
      rw [diffOf, haval]
      field_simp
      linear_combination radius1 ^ 2 * hD2
    have hlt : fuzzy_lt eps (dOf center1 center2) (radius1 + radius2) := by
      have habs : |radius1 - radius2| ≤ radius1 + radius2 :=
        abs_le.mpr ⟨by linarith, by linarith⟩
      rw [fuzzy_lt, hD]
      linarith
    have hgt : fuzzy_gt eps (dOf center1 center2) |radius1 - radius2| := by
      rw [fuzzy_gt, hD]
      linarith
    exact ⟨midpointOf radius1 center1 radius2 center2,
      tangent_of_diff_zero eps radius1 center1 radius2 center2 heps.le hz hlt hgt hdiff0⟩

/-- Counterexample to C7 as stated with fuzzy-equality: at tolerance 2 the
radius-5 circles eight units apart have center distance 8 fuzzy-equal to the
radius sum 10 and not fuzzy-zero, yet the result is `TwoIntersects`, not
`TangentIntersect`. -/
theorem tangency_classification_counterexample :
    fuzzy_eq 2 (dOf ⟨0, 0⟩ ⟨8, 0⟩) (5 + 5) ∧
    ¬ fuzzy_eq_zero 2 (dOf ⟨0, 0⟩ ⟨8, 0⟩) ∧
    circle_circle_intr 2 5 ⟨0, 0⟩ 5 ⟨8, 0⟩ =
      CircleCircleIntr.TwoIntersects ⟨4, -3⟩ ⟨4, 3⟩ := by
  refine ⟨?_, ?_, intr_5_5_eps2⟩
  · rw [fuzzy_eq, dOf_00_80, show (8 : ℝ) - (5 + 5) = -2 by norm_num,
      abs_of_nonpos (by norm_num)]
    norm_num
  · rw [fuzzy_eq_zero, dOf_00_80, abs_of_nonneg (by norm_num : (0 : ℝ) ≤ 8)]
    norm_num

/-- Witness for C7 (amended): radius 3 at the origin and radius 5 at (8, 0) are
exactly externally tangent; the result is a tangent intersect on the center
segment at distance 3 from the origin. -/
theorem tangency_classification_witness :
    (0 : ℝ) < 1 / 100 ∧ (0 : ℝ) ≤ 3 ∧ (0 : ℝ) ≤ 5 ∧
    ¬ fuzzy_eq_zero (1 / 100) (dOf ⟨0, 0⟩ ⟨8, 0⟩) ∧
    dOf ⟨0, 0⟩ ⟨8, 0⟩ = 3 + 5 ∧
    (circle_circle_intr (1 / 100) 3 ⟨0, 0⟩ 5 ⟨8, 0⟩ =
        CircleCircleIntr.TangentIntersect (midpointOf 3 ⟨0, 0⟩ 5 ⟨8, 0⟩) ∧
      Vector2.distTo (midpointOf 3 ⟨0, 0⟩ 5 ⟨8, 0⟩) ⟨0, 0⟩ = 3 ∧
      ∃ t, 0 ≤ t ∧ t ≤ 1 ∧ midpointOf 3 ⟨0, 0⟩ 5 ⟨8, 0⟩ =
        ⟨0, 0⟩ + (cvOf ⟨0, 0⟩ ⟨8, 0⟩).scale t) := by
  have hz : ¬ fuzzy_eq_zero (1 / 100) (dOf ⟨0, 0⟩ ⟨8, 0⟩) := by
    rw [fuzzy_eq_zero, dOf_00_80, abs_of_nonneg (by norm_num : (0 : ℝ) ≤ 8)]
    norm_num
  have hD : dOf ⟨0, 0⟩ ⟨8, 0⟩ = 3 + 5 := by
    rw [dOf_00_80]
    norm_num
  exact ⟨by norm_num, by norm_num, by norm_num, hz, hD,
    (tangency_classification (1 / 100) 3 ⟨0, 0⟩ 5 ⟨8, 0⟩ (by norm_num) (by norm_num)
      (by norm_num) hz).1 hD⟩

/-- C8: the unit circle at the origin against the circle of radius √2 centered
at (0, 1) yields `TwoIntersects` with points exactly (1, 0) and (−1, 0), for
every tolerance `0 ≤ eps < 1` (covering the implementation's fixed small
epsilon). -/
theorem unit_circle_sqrt2_case (eps : ℝ) (h0 : 0 ≤ eps) (h1 : eps < 1) :
    circle_circle_intr eps 1 ⟨0, 0⟩ (Real.sqrt 2) ⟨0, 1⟩ =
      CircleCircleIntr.TwoIntersects ⟨1, 0⟩ ⟨-1, 0⟩ := by
  have hd : dOf ⟨0, 0⟩ ⟨0, 1⟩ = 1 := by
    rw [dOf]
    exact sqrt_of_sq_eq _ 1 (by norm_num) (by rw [d2Of_expand]; norm_num)
  have hs2 : Real.sqrt 2 * Real.sqrt 2 = 2 := Real.mul_self_sqrt (by norm_num)
  have hs2nonneg : (0 : ℝ) ≤ Real.sqrt 2 := Real.sqrt_nonneg 2
  have hs2gt1 : (1 : ℝ) < Real.sqrt 2 := by nlinarith [hs2, hs2nonneg]
  have hs2lt2 : Real.sqrt 2 < 2 := by nlinarith [hs2, hs2nonneg]
  have ha : aOf 1 ⟨0, 0⟩ (Real.sqrt 2) ⟨0, 1⟩ = 0 := by
    rw [aOf, d2Of_expand, hd, hs2]
    norm_num
  have hdiff : diffOf 1 ⟨0, 0⟩ (Real.sqrt 2) ⟨0, 1⟩ = 1 := by
    rw [diffOf, ha]
    norm_num
  have hh : hOf 1 ⟨0, 0⟩ (Real.sqrt 2) ⟨0, 1⟩ = 1 := by
    rw [hOf, hdiff]
    exact Real.sqrt_one
  have hmid : midpointOf 1 ⟨0, 0⟩ (Real.sqrt 2) ⟨0, 1⟩ = ⟨0, 0⟩ := by
    ext <;> simp [ha]
  have hpt1 : pt1Of 1 ⟨0, 0⟩ (Real.sqrt 2) ⟨0, 1⟩ = ⟨1, 0⟩ := by
    ext <;> simp [hmid, hh, hd]
  have hpt2 : pt2Of 1 ⟨0, 0⟩ (Real.sqrt 2) ⟨0, 1⟩ = ⟨-1, 0⟩ := by
    ext <;> simp [hmid, hh, hd]
  rw [circle_circle_intr_eq, hd, hdiff, hpt1, hpt2]
  rw [if_neg (by rw [fuzzy_eq_zero, abs_one]; linarith)]
  rw [if_neg (by
    push_neg
    constructor
    · rw [fuzzy_lt]
      linarith
    · rw [fuzzy_gt, show |(1 : ℝ) - Real.sqrt 2| = Real.sqrt 2 - 1 by
        rw [abs_of_nonpos (by linarith)]; ring]
      linarith)]
  rw [if_neg (by norm_num)]
  rw [if_neg (by
    rintro ⟨hx, -⟩
    rw [fuzzy_eq, show |(1 : ℝ) - -1| = 2 by
      rw [show (1 : ℝ) - -1 = 2 by norm_num, abs_of_nonneg (by norm_num : (0 : ℝ) ≤ 2)]] at hx
    linarith)]

/-- Witness for C8: instantiated at the tolerance 10⁻⁸. -/
theorem unit_circle_sqrt2_case_witness :
    (0 : ℝ) ≤ 1 / 100000000 ∧ (1 / 100000000 : ℝ) < 1 ∧
      circle_circle_intr (1 / 100000000) 1 ⟨0, 0⟩ (Real.sqrt 2) ⟨0, 1⟩ =
        CircleCircleIntr.TwoIntersects ⟨1, 0⟩ ⟨-1, 0⟩ :=
  ⟨by norm_num, by norm_num,
    unit_circle_sqrt2_case (1 / 100000000) (by norm_num) (by norm_num)⟩

/-- C9: totality — every pair of finite inputs is classified as exactly one of
the four result variants, and the divisors `2d` and `d` used by the
non-degenerate arithmetic are nonzero under that branch's condition (`d` not
fuzzy-equal to zero). -/
theorem circle_circle_intr_total (eps radius1 : ℝ) (center1 : Vector2) (radius2 : ℝ)
    (center2 : Vector2) (heps : 0 ≤ eps) :
    (circle_circle_intr eps radius1 center1 radius2 center2 =
        CircleCircleIntr.NoIntersect ∨
      (∃ p, circle_circle_intr eps radius1 center1 radius2 center2 =
        CircleCircleIntr.TangentIntersect p) ∨
      (∃ p q, circle_circle_intr eps radius1 center1 radius2 center2 =
        CircleCircleIntr.TwoIntersects p q) ∨
      circle_circle_intr eps radius1 center1 radius2 center2 =
        CircleCircleIntr.Overlapping) ∧
    (¬ fuzzy_eq_zero eps (dOf center1 center2) →
      dOf center1 center2 ≠ 0 ∧ 2 * dOf center1 center2 ≠ 0) := by
  constructor
  · cases hv : circle_circle_intr eps radius1 center1 radius2 center2 with
    | NoIntersect => exact Or.inl rfl
    | TangentIntersect p => exact Or.inr (Or.inl ⟨p, rfl⟩)
    | TwoIntersects p q => exact Or.inr (Or.inr (Or.inl ⟨p, q, rfl⟩))
    | Overlapping => exact Or.inr (Or.inr (Or.inr rfl))
  · intro hz
    have hd := dOf_ne_zero heps hz
    exact ⟨hd, mul_ne_zero two_ne_zero hd⟩

/-- Witness for C9: instantiated at the radius-5 circles eight units apart. -/
theorem circle_circle_intr_total_witness :
    (0 : ℝ) ≤ 1 / 100 ∧
      ((circle_circle_intr (1 / 100) 5 ⟨0, 0⟩ 5 ⟨8, 0⟩ = CircleCircleIntr.NoIntersect ∨
        (∃ p, circle_circle_intr (1 / 100) 5 ⟨0, 0⟩ 5 ⟨8, 0⟩ =
          CircleCircleIntr.TangentIntersect p) ∨
        (∃ p q, circle_circle_intr (1 / 100) 5 ⟨0, 0⟩ 5 ⟨8, 0⟩ =
          CircleCircleIntr.TwoIntersects p q) ∨
        circle_circle_intr (1 / 100) 5 ⟨0, 0⟩ 5 ⟨8, 0⟩ = CircleCircleIntr.Overlapping) ∧
      (¬ fuzzy_eq_zero (1 / 100) (dOf ⟨0, 0⟩ ⟨8, 0⟩) →
        dOf ⟨0, 0⟩ ⟨8, 0⟩ ≠ 0 ∧ 2 * dOf ⟨0, 0⟩ ⟨8, 0⟩ ≠ 0)) :=
  ⟨by norm_num, circle_circle_intr_total (1 / 100) 5 ⟨0, 0⟩ 5 ⟨8, 0⟩ (by norm_num)⟩

/-! ## Translation invariance -/

/-- Translate every intersection point of a result by `t`. -/
def translateResult (t : Vector2) : CircleCircleIntr → CircleCircleIntr
  | CircleCircleIntr.NoIntersect => CircleCircleIntr.NoIntersect
  | CircleCircleIntr.TangentIntersect p => CircleCircleIntr.TangentIntersect (p + t)
  | CircleCircleIntr.TwoIntersects p q =>
      CircleCircleIntr.TwoIntersects (p + t) (q + t)
  | CircleCircleIntr.Overlapping => CircleCircleIntr.Overlapping

theorem cvOf_translate (c1 c2 t : Vector2) : cvOf (c1 + t) (c2 + t) = cvOf c1 c2 := by
  ext <;> simp

theorem d2Of_translate (c1 c2 t : Vector2) : d2Of (c1 + t) (c2 + t) = d2Of c1 c2 := by
  rw [d2Of, d2Of, cvOf_translate]

theorem dOf_translate (c1 c2 t : Vector2) : dOf (c1 + t) (c2 + t) = dOf c1 c2 := by
  rw [dOf, dOf, d2Of_translate]

theorem aOf_translate (radius1 : ℝ) (c1 : Vector2) (radius2 : ℝ) (c2 t : Vector2) :
    aOf radius1 (c1 + t) radius2 (c2 + t) = aOf radius1 c1 radius2 c2 := by
  rw [aOf, aOf, d2Of_translate, dOf_translate]

theorem midpointOf_translate (radius1 : ℝ) (c1 : Vector2) (radius2 : ℝ) (c2 t : Vector2) :
    midpointOf radius1 (c1 + t) radius2 (c2 + t) = midpointOf radius1 c1 radius2 c2 + t := by
  ext <;> simp [aOf_translate, dOf_translate] <;> ring

theorem diffOf_translate (radius1 : ℝ) (c1 : Vector2) (radius2 : ℝ) (c2 t : Vector2) :
    diffOf radius1 (c1 + t) radius2 (c2 + t) = diffOf radius1 c1 radius2 c2 := by
  rw [diffOf, diffOf, aOf_translate]

theorem hOf_translate (radius1 : ℝ) (c1 : Vector2) (radius2 : ℝ) (c2 t : Vector2) :
    hOf radius1 (c1 + t) radius2 (c2 + t) = hOf radius1 c1 radius2 c2 := by
  rw [hOf, hOf, diffOf_translate]

theorem pt1Of_translate (radius1 : ℝ) (c1 : Vector2) (radius2 : ℝ) (c2 t : Vector2) :
    pt1Of radius1 (c1 + t) radius2 (c2 + t) = pt1Of radius1 c1 radius2 c2 + t := by
  ext <;> simp [midpointOf_translate, hOf_translate, dOf_translate] <;> ring

theorem pt2Of_translate (radius1 : ℝ) (c1 : Vector2) (radius2 : ℝ) (c2 t : Vector2) :
    pt2Of radius1 (c1 + t) radius2 (c2 + t) = pt2Of radius1 c1 radius2 c2 + t := by
  ext <;> simp [midpointOf_translate, hOf_translate, dOf_translate] <;> ring

theorem Vector2.fuzzy_eq_translate (eps : ℝ) (u v t : Vector2) :
    Vector2.fuzzy_eq eps (u + t) (v + t) ↔ Vector2.fuzzy_eq eps u v := by
  rw [Vector2.fuzzy_eq, Vector2.fuzzy_eq]
  simp [CavalierContours.fuzzy_eq, add_sub_add_right_eq_sub]

/-- C10: translating both centers by a vector `t` leaves the classification
unchanged and translates every returned point by `t` (in the exact-arithmetic
embedding). -/
theorem circle_circle_intr_translate (eps radius1 : ℝ) (center1 : Vector2) (radius2 : ℝ)
    (center2 t : Vector2) :
    circle_circle_intr eps radius1 (center1 + t) radius2 (center2 + t) =
      translateResult t (circle_circle_intr eps radius1 center1 radius2 center2) := by
  rw [circle_circle_intr_eq eps radius1 (center1 + t) radius2 (center2 + t),
    circle_circle_intr_eq eps radius1 center1 radius2 center2,
    dOf_translate, diffOf_translate, midpointOf_translate, pt1Of_translate,
    pt2Of_translate, Vector2.fuzzy_eq_translate]
  split_ifs <;> rfl

end CavalierContours
